import Mathlib

/-!
Shallow embedding of the brptui TUI (Rust) for checking its
natural-language specification.  The repository contains two overlapping
drafts: a message-based draft (`brp.rs`, `events.rs`, `paginated_list.rs`,
`inspector.rs`, `keybinds.rs`) and an `App`-struct draft (`main.rs`,
`keys.rs`).  Each definition below names the Rust item it embeds.
-/

namespace Brptui

/-- JSON values as in `serde_json::Value`; objects are modelled as ordered
association lists (iteration order of the map) and numbers are abstracted
to `Int`, which no claim depends on. -/
inductive Json where
  | null
  | bool (b : Bool)
  | num (n : Int)
  | str (s : String)
  | arr (items : List Json)
  | obj (entries : List (String × Json))
deriving Repr

/-- `EntityMeta` from `brp.rs` / `main.rs`: entity id plus optional name. -/
structure EntityMeta where
  id : Nat
  name : Option String
deriving Repr, DecidableEq

/-- The `Message` enum of the message-based draft (subset used by claims). -/
inductive Message where
  | MoveLeft | MoveRight | MoveUp | MoveDown | PageUp | PageDown
  | UpdateEntities (v : List EntityMeta)
  | UpdateComponents (v : List (String × Json))
  | CommunicationFailed
  | Quit

/-- One row of a `bevy/query` response: entity id and the value of the
optional `bevy_core::name::Name` component, already extracted. -/
structure BrpQueryRow where
  entity : Nat
  name : Option String
deriving Repr

/-- Lexicographic strict order on character lists, by code point; UTF-8
byte order (Rust's `Ord` for `String`) coincides with code-point order. -/
def strLtAux : List Char → List Char → Bool
  | [], [] => false
  | [], _ :: _ => true
  | _ :: _, [] => false
  | c :: cs, d :: ds =>
    if c.toNat < d.toNat then true
    else if d.toNat < c.toNat then false
    else strLtAux cs ds

/-- Strict lexicographic order on strings (Rust `String::cmp` is `Less`). -/
def strLt (a b : String) : Bool := strLtAux a.toList b.toList

/-- Non-strict lexicographic order on strings. -/
def strLe (a b : String) : Bool := !(strLt b a)

/-- Stable insertion of `x` into `l`, placing `x` before the first element
it is strictly below; `lt` is the strict comparison. -/
def insertSorted (lt : α → α → Bool) (x : α) : List α → List α
  | [] => [x]
  | y :: ys => if lt x y then x :: y :: ys else y :: insertSorted lt x ys

/-- Stable sort by comparator, embedding Rust's `sort_by_key` / `sort_by`. -/
def sortBy (lt : α → α → Bool) : List α → List α
  | [] => []
  | x :: xs => insertSorted lt x (sortBy lt xs)

/-- Bool check that a list is non-decreasing under `le`. -/
def nondecBy (le : α → α → Bool) : List α → Bool
  | [] => true
  | [_] => true
  | x :: y :: r => le x y && nondecBy le (y :: r)

/-- `handle_entity_querying` (brp.rs:61-74), success path: build
`EntityMeta`s from the query rows, sort by id, and that sorted vector is
the payload of the `UpdateEntities` message. -/
def entityQueryPayload (rows : List BrpQueryRow) : List EntityMeta :=
  sortBy (fun a b => a.id < b.id)
    (rows.map (fun row => { id := row.entity, name := row.name }))

/-- `handle_components_querying` (brp.rs:108-114), success path: the
`UpdateComponents` payload is `components.into_iter().collect()` — the
map's pairs in iteration order, with no sorting applied. -/
def componentsQueryPayload (components : List (String × Json)) :
    List (String × Json) :=
  components

/-- `setup_get_thread` (main.rs:525-526): the other draft's component
poller sorts the pairs by name (`sort_by(|(a,_),(b,_)| a.cmp(b))`) before
sending them. -/
def setupGetThreadPayload (components : List (String × Json)) :
    List (String × Json) :=
  sortBy (fun a b => strLt a.1 b.1) components

/-- Non-decreasing by entity id. -/
def entitiesNondec (l : List EntityMeta) : Bool :=
  nondecBy (fun a b => a.id ≤ b.id) l

/-- Non-decreasing by component name. -/
def componentsNondec (l : List (String × Json)) : Bool :=
  nondecBy (fun a b => strLe a.1 b.1) l

/-- Checked `usize` subtraction: Rust `a - b` panics (debug) on underflow,
modelled as `none`. -/
def checkedSub (a b : Nat) : Option Nat :=
  if b ≤ a then some (a - b) else none

/-- `CursorMove` from `paginated_list.rs`. -/
inductive CursorMove where
  | Previous | Next | PreviousPage | NextPage
deriving Repr, DecidableEq

/-- `PaginatedListState` from `paginated_list.rs`. -/
structure PaginatedListState where
  selected : Nat
  cursor_move : Option CursorMove
deriving Repr, DecidableEq

namespace PaginatedListState

/-- `PaginatedListState::select_previous`: asserts no cursor move is
already queued (`none` = assertion panic), then queues `Previous`. -/
def select_previous (st : PaginatedListState) : Option PaginatedListState :=
  if st.cursor_move.isNone then
    some { st with cursor_move := some CursorMove.Previous }
  else none

/-- `PaginatedListState::select_next`, same assertion. -/
def select_next (st : PaginatedListState) : Option PaginatedListState :=
  if st.cursor_move.isNone then
    some { st with cursor_move := some CursorMove.Next }
  else none

/-- `PaginatedListState::select_previous_page`, same assertion. -/
def select_previous_page (st : PaginatedListState) :
    Option PaginatedListState :=
  if st.cursor_move.isNone then
    some { st with cursor_move := some CursorMove.PreviousPage }
  else none

/-- `PaginatedListState::select_next_page`, same assertion. -/
def select_next_page (st : PaginatedListState) : Option PaginatedListState :=
  if st.cursor_move.isNone then
    some { st with cursor_move := some CursorMove.NextPage }
  else none

/-- The `match self.cursor_move` of `apply_cursor_move`
(paginated_list.rs:73-91): the moved-but-not-yet-clamped index; every
`usize` subtraction that can underflow is modelled as `none` (panic). -/
def cursorTarget (st : PaginatedListState) (per_page items : Nat) :
    Option Nat :=
  let total_pages := (items + per_page - 1) / per_page
  match st.cursor_move with
  | some CursorMove.Previous =>
    if st.selected = 0 then checkedSub items 1
    else checkedSub st.selected 1
  | some CursorMove.Next =>
    match checkedSub items 1 with
    | none => none
    | some last => some (if st.selected = last then 0 else st.selected + 1)
  | some CursorMove.PreviousPage =>
    if st.selected < per_page then
      match checkedSub total_pages 1 with
      | none => none
      | some tp1 => some (st.selected + per_page * tp1)
    else checkedSub st.selected per_page
  | some CursorMove.NextPage =>
    match checkedSub total_pages 1 with
    | none => none
    | some tp1 =>
      if st.selected ≥ per_page * tp1 then
        checkedSub st.selected (per_page * tp1)
      else some (st.selected + per_page)
  | none => some st.selected

/-- The tail of `apply_cursor_move` (paginated_list.rs:92-93):
`self.selected = self.selected.min(items - 1)` (unchecked `items - 1`)
and clearing `cursor_move`. -/
def resolveClamp (moved : Option Nat) (items : Nat) :
    Option PaginatedListState :=
  match moved, checkedSub items 1 with
  | some sel, some last =>
    some { selected := min sel last, cursor_move := none }
  | _, _ => none

/-- `PaginatedListState::apply_cursor_move` (paginated_list.rs:71-94).
`div_ceil` with a zero divisor is modelled as `none` (a Rust panic). -/
def apply_cursor_move (st : PaginatedListState) (per_page items : Nat) :
    Option PaginatedListState :=
  if per_page = 0 then none
  else resolveClamp (cursorTarget st per_page items) items

end PaginatedListState

/-- The page a selected index lives on (`page = selected / per_page`,
paginated_list.rs:111). -/
def pageOf (per_page selected : Nat) : Nat := selected / per_page

/-- `handle_key_event` (keys.rs:16-26), entity-list Up branch: unchecked
`entities_len - 1` when the index is already 0. -/
def entityListMoveUp (index len : Nat) : Option Nat :=
  if 0 < index then some (index - 1) else checkedSub len 1

/-- `handle_key_event` (keys.rs:27-37), entity-list Down branch: the guard
itself computes `entities_len - 1` unchecked. -/
def entityListMoveDown (index len : Nat) : Option Nat :=
  match checkedSub len 1 with
  | none => none
  | some last => some (if index < last then index + 1 else 0)

/-- `handle_key_event` (keys.rs:40-48), component-list Up branch: uses
`components_len.saturating_sub(1)`, hence total. -/
def componentListMoveUp (index len : Nat) : Nat :=
  if 0 < index then index - 1 else len - 1

/-- `handle_key_event` (keys.rs:49-57), component-list Down branch: guard
compares against `components_len.saturating_sub(1)`, hence total. -/
def componentListMoveDown (index len : Nat) : Nat :=
  if index < len - 1 then index + 1 else 0

/-- `ValueType` from `inspector.rs`. -/
inductive ValueType where
  | null | bool | number | string | array | object
deriving Repr, DecidableEq

/-- `impl From<&Value> for ValueType` (inspector.rs:370-381). -/
def ValueType.fromValue : Json → ValueType
  | Json.null => ValueType.null
  | Json.bool _ => ValueType.bool
  | Json.num _ => ValueType.number
  | Json.str _ => ValueType.string
  | Json.arr _ => ValueType.array
  | Json.obj _ => ValueType.object

/-- `InspecotorLine` from inspector.rs:306-332 (source typo preserved). -/
inductive InspecotorLine where
  | ObjectStart (name : String) (indent_level : Nat)
  | ObjectField (name : String) (value : Json) (indent_level : Nat)
  | ObjectEnd (indent_level : Nat)
  | ArrayStart (name : String) (indent_level : Nat) (value_type : ValueType)
  | ArrayItem (value : Json) (indent_level : Nat)
  | ArrayEnd (indent_level : Nat)
deriving Repr

/-- `flatten_value_map` (inspector.rs:334-368): pre-order walk of an
object's entries; nested objects recurse with start/end markers, arrays
emit their items wholesale (no recursion into items), everything else
becomes a named field line. -/
def flatten_value_map : List (String × Json) → Nat → List InspecotorLine
  | [], _ => []
  | (name, Json.obj inner) :: tl, indent_level =>
    InspecotorLine.ObjectStart name indent_level ::
      (flatten_value_map inner (indent_level + 1) ++
        (InspecotorLine.ObjectEnd indent_level ::
          flatten_value_map tl indent_level))
  | (name, Json.arr items) :: tl, indent_level =>
    InspecotorLine.ArrayStart name indent_level
        (ValueType.fromValue (Json.arr items)) ::
      (items.map (fun item => InspecotorLine.ArrayItem item indent_level) ++
        (InspecotorLine.ArrayEnd indent_level ::
          flatten_value_map tl indent_level))
  | (name, v) :: tl, indent_level =>
    InspecotorLine.ObjectField name v indent_level ::
      flatten_value_map tl indent_level

/-- The filter used by `Inspector::new` and `render` (inspector.rs:29-33,
110-117): `ObjectStart`, `ArrayStart` and `ObjectField` lines are
selectable; array items and end markers are not. -/
def isSelectable : InspecotorLine → Bool
  | InspecotorLine.ObjectStart _ _ => true
  | InspecotorLine.ArrayStart _ _ _ => true
  | InspecotorLine.ObjectField _ _ _ => true
  | _ => false

/-- A primitive (non-object, non-array) JSON value. -/
def isPrimitive : Json → Bool
  | Json.obj _ => false
  | Json.arr _ => false
  | _ => true

/-- Modelled from the spec's words (for comparison with `isSelectable`):
"Selectable lines are: any Primitive, any ObjectStart, any ArrayStart" —
primitive lines are the named object fields and the primitive-valued
array items. -/
def specSelectable : InspecotorLine → Bool
  | InspecotorLine.ObjectStart _ _ => true
  | InspecotorLine.ArrayStart _ _ _ => true
  | InspecotorLine.ObjectField _ _ _ => true
  | InspecotorLine.ArrayItem v _ => isPrimitive v
  | _ => false

/-- `InspectorState` (inspector.rs:59-65), restricted to the fields the
claims mention (`selected` and the `value_types` cache). -/
structure InspectorState where
  selected : Nat
  value_types : List ValueType
deriving Repr, DecidableEq

/-- The `filter_map` closure of `Inspector::new` (inspector.rs:29-34):
`Object` for object starts, the field's type for fields, the cached type
for array starts, nothing for the rest. -/
def lineValueType : InspecotorLine → Option ValueType
  | InspecotorLine.ObjectStart _ _ => some ValueType.object
  | InspecotorLine.ObjectField _ v _ => some (ValueType.fromValue v)
  | InspecotorLine.ArrayStart _ _ vt => some vt
  | _ => none

/-- `Inspector::new` (inspector.rs:25-44): the `value_types` cache — one
entry per selectable line of the flattened object; a non-object value
caches its own single type. -/
def inspectorValueTypes : Json → List ValueType
  | Json.obj m => (flatten_value_map m 0).filterMap lineValueType
  | v => [ValueType.fromValue v]

/-- `InspectorState::select_previous` (inspector.rs:78-80):
`saturating_sub(1)`. -/
def InspectorState.select_previous (st : InspectorState) : InspectorState :=
  { st with selected := st.selected - 1 }

/-- `InspectorState::select_next` (inspector.rs:82-84):
`(selected + 1).min(value_types.len() - 1)` — the unchecked `len() - 1`
is `none` (panic) when the cache is empty. -/
def InspectorState.select_next (st : InspectorState) : Option InspectorState :=
  match checkedSub st.value_types.length 1 with
  | none => none
  | some m => some { st with selected := min (st.selected + 1) m }

/-- `total_pages = items.div_ceil(per_page)` (paginated_list.rs:72). -/
def totalPages (per_page items : Nat) : Nat := (items + per_page - 1) / per_page

/-- `crossterm::event::KeyCode`, restricted to the variants the claims
mention; every variant not matched by `handle_key`'s named arms (here
`tab`, `backTab`, `enter`, `esc`, `home`, `endKey`, `delete`, `backspace`
and unmatched `char`s) falls through to its wildcard. -/
inductive KeyCode where
  | left | right | up | down | pageUp | pageDown
  | char (c : Char)
  | tab | backTab | enter | esc | home | endKey | delete | backspace
deriving Repr, DecidableEq

/-- `crossterm::event::KeyEventKind`. -/
inductive KeyEventKind where
  | press | release | repeatKind
deriving Repr, DecidableEq

/-- `crossterm::event::KeyEvent`: code, CONTROL-modifier flag, kind. -/
structure KeyEvent where
  code : KeyCode
  ctrl : Bool
  kind : KeyEventKind
deriving Repr, DecidableEq

/-- `handle_key` (events.rs:22-33): matches on `key.code` only — the
modifiers are never inspected, so Ctrl-C is just the char `'c'` and falls
through to the wildcard. -/
def handle_key (key : KeyEvent) : Option Message :=
  match key.code with
  | KeyCode.left | KeyCode.char 'h' => some Message.MoveLeft
  | KeyCode.right | KeyCode.char 'l' => some Message.MoveRight
  | KeyCode.up | KeyCode.char 'k' => some Message.MoveUp
  | KeyCode.down | KeyCode.char 'j' => some Message.MoveDown
  | KeyCode.pageUp | KeyCode.char '[' => some Message.PageUp
  | KeyCode.pageDown | KeyCode.char ']' => some Message.PageDown
  | KeyCode.char 'q' => some Message.Quit
  | _ => none

/-- `crossterm::event::Event`: a key event or anything else (resize,
focus, mouse, paste — all hit `handle_events`' wildcard). -/
inductive TermEvent where
  | key (k : KeyEvent)
  | other
deriving Repr, DecidableEq

/-- The per-event translation of `handle_events` (events.rs:11-14): press
key events go through `handle_key`, everything else yields no message. -/
def eventMessage : TermEvent → Option Message
  | TermEvent.key k =>
    if k.kind = KeyEventKind.press then handle_key k else none
  | TermEvent.other => none

/-- One iteration of `handle_entity_querying`'s loop (brp.rs:52-82): from
the query outcome (`none` = the request failed), the messages sent this
iteration and whether the loop continues.  The loop body has no `return`
or `break`: both arms fall through to the sleep and the next iteration. -/
def entityPollStep (result : Option (List BrpQueryRow)) :
    List Message × Bool :=
  match result with
  | some rows => ([Message.UpdateEntities (entityQueryPayload rows)], true)
  | none => ([Message.CommunicationFailed], true)

/-- One iteration of `setup_query_thread`'s loop (main.rs:437-471): when
`brp_request` returns `None` the closure `return`s, sending nothing; on
success it sends the id-sorted entities on its dedicated channel (not a
`Message`) and continues.  `main.rs` builds the same
`EntityMeta`-and-sort payload as `brp.rs`. -/
def setupQueryThreadStep (result : Option (List BrpQueryRow)) :
    List (List EntityMeta) × Bool :=
  match result with
  | some rows => ([entityQueryPayload rows], true)
  | none => ([], false)

/-- The loop of `handle_components_querying` (brp.rs:103-123) run over a
finite schedule: per iteration, the cancel flag as observed at the top of
the loop, and the `get` outcome (`some` = `Ok(Lenient)`; a transport
error or a `Strict` response both take the failure arm).  A raised flag
returns before sending; a failed get sends `CommunicationFailed` and
returns; a successful get sends `UpdateComponents` and continues. -/
def componentsLoop :
    List (Bool × Option (List (String × Json))) → List Message
  | [] => []
  | (quit, res) :: rest =>
    if quit then []
    else
      match res with
      | some pairs =>
        Message.UpdateComponents (componentsQueryPayload pairs) ::
          componentsLoop rest
      | none => [Message.CommunicationFailed]

/-- `handle_components_querying` (brp.rs:85-124): the preflight
`list(entity)` result (`none` = failure: send `CommunicationFailed` and
return) followed by the loop. -/
def handle_components_querying (preflight : Option (List String))
    (iters : List (Bool × Option (List (String × Json)))) : List Message :=
  match preflight with
  | none => [Message.CommunicationFailed]
  | some _ => componentsLoop iters

/-- `Focus` from the message-based draft (`Search` reserved). -/
inductive Focus where
  | entities | components | inspector | search
deriving Repr, DecidableEq

/-- The `State` sum of the message-based draft, restricted to what
`active_keybinds` inspects: `Connected` carries the focus and the
inspector state (`keybinds.rs:90-108` reads nothing else). -/
inductive State where
  | disconnected
  | connected (focus : Focus) (inspector : InspectorState)
  | done

/-- `InspectorState::selected_value_type` (inspector.rs:86-88):
`self.value_types[self.selected]` — out-of-range indexing is a panic,
modelled as `none`. -/
def InspectorState.selected_value_type (st : InspectorState) :
    Option ValueType :=
  st.value_types.get? st.selected

/-- `KeybindCondition` (keybinds.rs:17-23). -/
inductive KeybindCondition where
  | always
  | connected
  | focus (required : List Focus)
  | inspectorValue (values : List ValueType)
  | custom (f : State → Bool)

/-- `Keybind` (keybinds.rs:10-14). -/
structure Keybind where
  keys : String
  description : String
  condition : KeybindCondition

/-- `KeybindSet` (keybinds.rs:27-29). -/
structure KeybindSet where
  keybinds : List Keybind

/-- The filter closure of `active_keybinds` (keybinds.rs:88-110): whether
one keybind's condition holds for the state; `none` marks the panic of
`selected_value_type` on an out-of-range index. -/
def condEval (state : State) : KeybindCondition → Option Bool
  | KeybindCondition.always => some true
  | KeybindCondition.connected =>
    some (match state with
      | State.connected _ _ => true
      | _ => false)
  | KeybindCondition.focus required =>
    some (match state with
      | State.connected focus _ => required.contains focus
      | _ => false)
  | KeybindCondition.inspectorValue values =>
    match state with
    | State.connected focus insp =>
      if focus = Focus.inspector then
        match insp.selected_value_type with
        | none => none
        | some vt => some (values.contains vt)
      else some false
    | _ => some false
  | KeybindCondition.custom f => some (f state)

/-- The iteration of `active_keybinds` over the declaration-order keybind
list: keep `(keys, description)` of each keybind whose condition holds. -/
def activeKeybindsAux (state : State) :
    List Keybind → Option (List (String × String))
  | [] => some []
  | kb :: tl =>
    match condEval state kb.condition with
    | none => none
    | some b =>
      match activeKeybindsAux state tl with
      | none => none
      | some r => some (if b then (kb.keys, kb.description) :: r else r)

/-- `KeybindSet::active_keybinds` (keybinds.rs:85-113). -/
def active_keybinds (set : KeybindSet) (state : State) :
    Option (List (String × String)) :=
  activeKeybindsAux state set.keybinds

/-- Concatenation of rendered span texts. -/
def concatStrs : List String → String
  | [] => ""
  | s :: rest => s ++ concatStrs rest

/-- The spans `KeybindDisplay::render` emits (keybinds.rs:122-139): for
entry `n`, its keys, a space, its description, and — unless it is the
last entry — the separator literal of keybinds.rs:133, which is the
mojibake `" â€¢ "` (bytes C3 A2 E2 82 AC C2 A2), not the bullet
`" • "` that main.rs:402 and paginated_list.rs:147 use. -/
def keybindDisplaySpans (entries : List (String × String)) :
    List (List String) :=
  entries.enum.map fun p =>
    [p.2.1, " ", p.2.2, if p.1 ≠ entries.length - 1 then " â€¢ " else ""]

/-- The footer text: all spans of `KeybindDisplay::render` in order. -/
def footerString (entries : List (String × String)) : String :=
  concatStrs (keybindDisplaySpans entries).flatten

/-- Modelled from the spec: "Display format: for each active binding
`keys description`, separated by `\" • \"`". -/
def specFooter : List (String × String) → String
  | [] => ""
  | [(k, d)] => k ++ " " ++ d
  | (k, d) :: tl => k ++ " " ++ d ++ " • " ++ specFooter tl

/-- The format the code actually renders: `keys description` entries
joined by keybinds.rs:133's literal `" â€¢ "`. -/
def mojibakeFooter : List (String × String) → String
  | [] => ""
  | [(k, d)] => k ++ " " ++ d
  | (k, d) :: tl => k ++ " " ++ d ++ " â€¢ " ++ mojibakeFooter tl

/-- The reducer's invariant on states the renderer sees: a connected
state's inspector selection is within its `value_types` cache. -/
def stateOk : State → Bool
  | State.connected _ insp => insp.selected < insp.value_types.length
  | _ => true

/-- Re-serialization, array part: consume `ArrayItem` lines up to the
matching `ArrayEnd`, yielding the items and the remaining lines. -/
def parseItems :
    List InspecotorLine → Option (List Json × List InspecotorLine)
  | InspecotorLine.ArrayItem v _ :: rest =>
    match parseItems rest with
    | none => none
    | some (vs, r) => some (v :: vs, r)
  | InspecotorLine.ArrayEnd _ :: rest => some ([], rest)
  | _ => none

/-- Re-serialization, object part: read entries back off the flattened
line sequence — a field line yields its pair, an `ObjectStart` opens a
nested object closed by an `ObjectEnd` of the same indent, an `ArrayStart`
collects items up to its `ArrayEnd`; parsing stops (without consuming) at
an `ObjectEnd` or at the end of input.  `fuel` bounds the recursion
depth. -/
def parseEntries :
    Nat → List InspecotorLine →
      Option (List (String × Json) × List InspecotorLine)
  | _, [] => some ([], [])
  | _, InspecotorLine.ObjectEnd i :: rest =>
    some ([], InspecotorLine.ObjectEnd i :: rest)
  | 0, _ => none
  | fuel + 1, InspecotorLine.ObjectField name v _ :: rest =>
    match parseEntries fuel rest with
    | none => none
    | some (es, r) => some ((name, v) :: es, r)
  | fuel + 1, InspecotorLine.ObjectStart name i :: rest =>
    match parseEntries fuel rest with
    | none => none
    | some (inner, r) =>
      match r with
      | InspecotorLine.ObjectEnd j :: r2 =>
        if j = i then
          match parseEntries fuel r2 with
          | none => none
          | some (es, r3) => some ((name, Json.obj inner) :: es, r3)
        else none
      | _ => none
  | fuel + 1, InspecotorLine.ArrayStart name _ _ :: rest =>
    match parseItems rest with
    | none => none
    | some (items, r) =>
      match parseEntries fuel r with
      | none => none
      | some (es, r2) => some ((name, Json.arr items) :: es, r2)
  | _, InspecotorLine.ArrayItem _ _ :: _ => none
  | _, InspecotorLine.ArrayEnd _ :: _ => none

/-- The number of object entries at all nesting levels: a fuel bound for
re-serializing a flattened object. -/
def msize : List (String × Json) → Nat
  | [] => 0
  | (_, Json.obj inner) :: tl => 1 + msize inner + msize tl
  | _ :: tl => 1 + msize tl

/-- Re-serialize a flattened line sequence back into an object's entry
list; the input's length bounds the recursion depth, and the whole
sequence must be consumed. -/
def rebuildObject (lines : List InspecotorLine) :
    Option (List (String × Json)) :=
  match parseEntries lines.length lines with
  | some (es, []) => some es
  | _ => none

/-! ## Theorems -/

theorem strLtAux_asymm (a b : List Char) (h : strLtAux a b = true) :
    strLtAux b a = false := by
  induction a generalizing b with
  | nil =>
    cases b with
    | nil => simp [strLtAux] at h
    | cons d ds => simp [strLtAux]
  | cons c cs ih =>
    cases b with
    | nil => simp [strLtAux] at h
    | cons d ds =>
      by_cases h1 : c.toNat < d.toNat
      · have h2 : ¬ d.toNat < c.toNat := by omega
        simp [strLtAux, h1, h2]
      · by_cases h2 : d.toNat < c.toNat
        · simp [strLtAux, h1, h2] at h
        · simp [strLtAux, h1, h2] at h ⊢
          exact ih ds h

theorem strLt_asymm (a b : String) (h : strLt a b = true) :
    strLt b a = false :=
  strLtAux_asymm _ _ h

theorem nondecBy_insertSorted (le lt : α → α → Bool)
    (htot : ∀ a b, lt a b = false → le b a = true)
    (hlt : ∀ a b, lt a b = true → le a b = true)
    (x : α) (l : List α) (h : nondecBy le l = true) :
    nondecBy le (insertSorted lt x l) = true := by
  induction l with
  | nil => simp [insertSorted, nondecBy]
  | cons y ys ih =>
    by_cases hxy : lt x y = true
    · simp [insertSorted, hxy, nondecBy, hlt x y hxy, h]
    · have hxy' : lt x y = false := by
        cases hv : lt x y
        · rfl
        · exact absurd hv hxy
      have hyx : le y x = true := htot x y hxy'
      cases ys with
      | nil => simp [insertSorted, hxy', nondecBy, hyx]
      | cons z zs =>
        have hys : nondecBy le (z :: zs) = true := by
          simp [nondecBy] at h
          exact h.2
        have hyz : le y z = true := by
          simp [nondecBy] at h
          exact h.1
        have ihys := ih hys
        by_cases hxz : lt x z = true
        · simp only [insertSorted, hxy', if_false, hxz, if_true] at ihys ⊢
          simp [nondecBy, hyx, hxy']
          simp [insertSorted, hxz, nondecBy] at ihys
          exact ihys
        · have hxz' : lt x z = false := by
            cases hv : lt x z
            · rfl
            · exact absurd hv hxz
          simp only [insertSorted, hxy', if_false, hxz', if_true] at ihys ⊢
          simp [nondecBy, hyz]
          simp [nondecBy] at ihys
          exact ihys

theorem nondecBy_sortBy (le lt : α → α → Bool)
    (htot : ∀ a b, lt a b = false → le b a = true)
    (hlt : ∀ a b, lt a b = true → le a b = true)
    (l : List α) : nondecBy le (sortBy lt l) = true := by
  induction l with
  | nil => simp [sortBy, nondecBy]
  | cons x xs ih => exact nondecBy_insertSorted le lt htot hlt x _ ih

theorem checkedSub_of_le {a b : Nat} (h : b ≤ a) :
    checkedSub a b = some (a - b) := by
  simp [checkedSub, h]

theorem totalPages_eq (per_page items : Nat) (hpp : 0 < per_page)
    (hit : 0 < items) :
    totalPages per_page items = (items - 1) / per_page + 1 := by
  unfold totalPages
  have h1 : items + per_page - 1 = (items - 1) + per_page := by omega
  rw [h1, Nat.add_div_right _ hpp]

theorem totalPages_pos (per_page items : Nat) (hpp : 0 < per_page)
    (hit : 0 < items) : 0 < totalPages per_page items := by
  rw [totalPages_eq per_page items hpp hit]
  exact Nat.succ_pos _

theorem lt_per_page_mul_totalPages (per_page items : Nat) (hpp : 0 < per_page)
    (hit : 0 < items) : items - 1 < per_page * totalPages per_page items := by
  have h := totalPages_eq per_page items hpp hit
  have h2 : (items - 1) / per_page < totalPages per_page items := by omega
  rw [Nat.div_lt_iff_lt_mul hpp] at h2
  rw [Nat.mul_comm]
  exact h2

/-- C2: in a paginated list with `items > 0` (and positive page size),
resolving a pending cursor intent wraps at both ends — `Previous` at index
0 yields `items − 1`, `Next` at `items − 1` yields 0, `PreviousPage` from
the first page lands on the last page, `NextPage` from the last page lands
on the first page — and every resolution succeeds with the selected index
clamped to at most `items − 1`. -/
theorem C2_cursor_wrap (per_page items : Nat) (hpp : 0 < per_page)
    (hit : 0 < items) :
    (PaginatedListState.apply_cursor_move
        ⟨0, some CursorMove.Previous⟩ per_page items =
      some ⟨items - 1, none⟩) ∧
    (PaginatedListState.apply_cursor_move
        ⟨items - 1, some CursorMove.Next⟩ per_page items =
      some ⟨0, none⟩) ∧
    (∀ s, s < per_page →
      ∃ st', PaginatedListState.apply_cursor_move
          ⟨s, some CursorMove.PreviousPage⟩ per_page items = some st' ∧
        pageOf per_page st'.selected = totalPages per_page items - 1) ∧
    (∀ s, s < items → per_page * (totalPages per_page items - 1) ≤ s →
      ∃ st', PaginatedListState.apply_cursor_move
          ⟨s, some CursorMove.NextPage⟩ per_page items = some st' ∧
        pageOf per_page st'.selected = 0) ∧
    (∀ s cm, ∃ st', PaginatedListState.apply_cursor_move
          ⟨s, cm⟩ per_page items = some st' ∧
        st'.selected ≤ items - 1) := by
  have hppne : ¬ per_page = 0 := Nat.pos_iff_ne_zero.mp hpp
  have hsub1 : checkedSub items 1 = some (items - 1) := checkedSub_of_le hit
  have htp := totalPages_eq per_page items hpp hit
  have htp_pos := totalPages_pos per_page items hpp hit
  have hfold : (items + per_page - 1) / per_page = totalPages per_page items :=
    rfl
  have htp1 : checkedSub (totalPages per_page items) 1 =
      some (totalPages per_page items - 1) :=
    checkedSub_of_le htp_pos
  have hlast_page : (items - 1) / per_page = totalPages per_page items - 1 := by
    rw [htp]
    omega
  refine ⟨?_, ?_, ?_, ?_, ?_⟩
  · simp [PaginatedListState.apply_cursor_move, PaginatedListState.cursorTarget, PaginatedListState.resolveClamp, hppne, hsub1]
  · simp [PaginatedListState.apply_cursor_move, PaginatedListState.cursorTarget, PaginatedListState.resolveClamp, hppne, hsub1]
  · intro s hs
    refine ⟨⟨min (s + per_page * (totalPages per_page items - 1)) (items - 1),
        none⟩, ?_, ?_⟩
    · simp [PaginatedListState.apply_cursor_move, PaginatedListState.cursorTarget, PaginatedListState.resolveClamp, hppne, hsub1, hs, hfold,
        htp1]
    · have hdiv1 : (s + per_page * (totalPages per_page items - 1)) / per_page
          = totalPages per_page items - 1 := by
        rw [Nat.mul_comm per_page, Nat.add_mul_div_right _ _ hpp,
          Nat.div_eq_of_lt hs, Nat.zero_add]
      rcases Nat.le_total (s + per_page * (totalPages per_page items - 1))
          (items - 1) with hle | hle
      · simp only [pageOf, Nat.min_eq_left hle, hdiv1]
      · simp only [pageOf, Nat.min_eq_right hle, hlast_page]
  · intro s hs hfirst
    have hguard : checkedSub s (per_page * (totalPages per_page items - 1)) =
        some (s - per_page * (totalPages per_page items - 1)) :=
      checkedSub_of_le hfirst
    have hs1 : s - per_page * (totalPages per_page items - 1) ≤ items - 1 := by
      omega
    refine ⟨⟨min (s - per_page * (totalPages per_page items - 1)) (items - 1),
        none⟩, ?_, ?_⟩
    · simp [PaginatedListState.apply_cursor_move, PaginatedListState.cursorTarget, PaginatedListState.resolveClamp, hppne, hsub1, hfold, htp1,
        hfirst, hguard]
    · have hmul := lt_per_page_mul_totalPages per_page items hpp hit
      have hsmall : s - per_page * (totalPages per_page items - 1) <
          per_page := by
        have htpeq : totalPages per_page items =
            (totalPages per_page items - 1) + 1 := by omega
        have hsplit : per_page * totalPages per_page items =
            per_page * (totalPages per_page items - 1) + per_page := by
          conv_lhs => rw [htpeq]
          rw [Nat.mul_succ]
        omega
      simp only [pageOf, Nat.min_eq_left hs1, Nat.div_eq_of_lt hsmall]
  · intro s cm
    cases cm with
    | none =>
      exact ⟨⟨min s (items - 1), none⟩, by
        simp [PaginatedListState.apply_cursor_move, PaginatedListState.cursorTarget, PaginatedListState.resolveClamp, hppne, hsub1],
        Nat.min_le_right _ _⟩
    | some c =>
      cases c with
      | Previous =>
        by_cases hzero : s = 0
        · subst hzero
          exact ⟨⟨items - 1, none⟩, by
            simp [PaginatedListState.apply_cursor_move, PaginatedListState.cursorTarget, PaginatedListState.resolveClamp, hppne, hsub1],
            Nat.le_refl _⟩
        · have hs1 : checkedSub s 1 = some (s - 1) :=
            checkedSub_of_le (by omega)
          exact ⟨⟨min (s - 1) (items - 1), none⟩, by
            simp [PaginatedListState.apply_cursor_move, PaginatedListState.cursorTarget, PaginatedListState.resolveClamp, hppne, hsub1, hzero,
              hs1],
            Nat.min_le_right _ _⟩
      | Next =>
        by_cases hlast : s = items - 1
        · subst hlast
          exact ⟨⟨0, none⟩, by
            simp [PaginatedListState.apply_cursor_move, PaginatedListState.cursorTarget, PaginatedListState.resolveClamp, hppne, hsub1],
            Nat.zero_le _⟩
        · exact ⟨⟨min (s + 1) (items - 1), none⟩, by
            simp [PaginatedListState.apply_cursor_move, PaginatedListState.cursorTarget, PaginatedListState.resolveClamp, hppne, hsub1, hlast],
            Nat.min_le_right _ _⟩
      | PreviousPage =>
        by_cases hfp : s < per_page
        · exact ⟨⟨min (s + per_page * (totalPages per_page items - 1))
              (items - 1), none⟩, by
            simp [PaginatedListState.apply_cursor_move, PaginatedListState.cursorTarget, PaginatedListState.resolveClamp, hppne, hsub1, hfp,
              hfold, htp1],
            Nat.min_le_right _ _⟩
        · have hsp : checkedSub s per_page = some (s - per_page) :=
            checkedSub_of_le (by omega)
          exact ⟨⟨min (s - per_page) (items - 1), none⟩, by
            simp [PaginatedListState.apply_cursor_move, PaginatedListState.cursorTarget, PaginatedListState.resolveClamp, hppne, hsub1, hfp,
              hsp],
            Nat.min_le_right _ _⟩
      | NextPage =>
        by_cases hlastp : per_page * (totalPages per_page items - 1) ≤ s
        · have hguard : checkedSub s
              (per_page * (totalPages per_page items - 1)) =
              some (s - per_page * (totalPages per_page items - 1)) :=
            checkedSub_of_le hlastp
          exact ⟨⟨min (s - per_page * (totalPages per_page items - 1))
              (items - 1), none⟩, by
            simp [PaginatedListState.apply_cursor_move, PaginatedListState.cursorTarget, PaginatedListState.resolveClamp, hppne, hsub1, hfold,
              htp1, hlastp, hguard],
            Nat.min_le_right _ _⟩
        · exact ⟨⟨min (s + per_page) (items - 1), none⟩, by
            simp [PaginatedListState.apply_cursor_move, PaginatedListState.cursorTarget, PaginatedListState.resolveClamp, hppne, hsub1, hfold,
              htp1, hlastp],
            Nat.min_le_right _ _⟩

/-- C2 witness: a concrete 5-item list with page size 3; `Previous` at 0
resolves to 4 and the remaining clauses are discharged at that shape. -/
theorem C2_cursor_wrap_witness :
    (0 < 3 ∧ 0 < 5) ∧
    PaginatedListState.apply_cursor_move
      ⟨0, some CursorMove.Previous⟩ 3 5 = some ⟨4, none⟩ :=
  ⟨⟨by decide, by decide⟩, (C2_cursor_wrap 3 5 (by decide) (by decide)).1⟩

/-- C3: the claim says movement intents on empty lists use saturating
arithmetic and cannot panic.  The code evaluated at empty inputs: the
entity-list Up/Down branches of `handle_key_event` compute
`entities_len - 1` unchecked and underflow (`none` = panic), as do
`InspectorState::select_next` (`value_types.len() - 1`) and
`apply_cursor_move`'s final clamp (`items - 1`); only the component-list
branches genuinely saturate. -/
theorem C3_empty_list_movement_panics :
    entityListMoveUp 0 0 = none ∧
    entityListMoveDown 0 0 = none ∧
    InspectorState.select_next ⟨0, []⟩ = none ∧
    PaginatedListState.apply_cursor_move ⟨0, none⟩ 1 0 = none ∧
    componentListMoveUp 0 0 = 0 ∧
    componentListMoveDown 0 0 = 0 := by
  decide

/-- C10: at most one cursor intent can be pending between renders: with no
pending move each select operation queues its intent; with a pending move
every select operation asserts and panics (`none`); and any successful
resolution clears the pending intent. -/
theorem C10_single_pending_intent (st : PaginatedListState) :
    (st.cursor_move = none →
      st.select_previous = some { st with cursor_move := some CursorMove.Previous } ∧
      st.select_next = some { st with cursor_move := some CursorMove.Next } ∧
      st.select_previous_page =
        some { st with cursor_move := some CursorMove.PreviousPage } ∧
      st.select_next_page =
        some { st with cursor_move := some CursorMove.NextPage }) ∧
    (∀ c, st.cursor_move = some c →
      st.select_previous = none ∧ st.select_next = none ∧
      st.select_previous_page = none ∧ st.select_next_page = none) ∧
    (∀ per_page items st',
      st.apply_cursor_move per_page items = some st' →
      st'.cursor_move = none) := by
  refine ⟨?_, ?_, ?_⟩
  · intro h
    simp [PaginatedListState.select_previous, PaginatedListState.select_next,
      PaginatedListState.select_previous_page,
      PaginatedListState.select_next_page, h]
  · intro c h
    simp [PaginatedListState.select_previous, PaginatedListState.select_next,
      PaginatedListState.select_previous_page,
      PaginatedListState.select_next_page, h]
  · intro per_page items st' h
    unfold PaginatedListState.apply_cursor_move at h
    split at h
    · exact absurd h (by simp)
    · unfold PaginatedListState.resolveClamp at h
      split at h
      · simp only [Option.some.injEq] at h
        rw [← h]
      · exact absurd h (by simp)

/-- C10 witness: with no pending move, `select_next` queues `Next`; with
`Next` pending, `select_previous` panics; resolving on a 5-item page of 3
clears the pending move. -/
theorem C10_single_pending_intent_witness :
    ((⟨0, none⟩ : PaginatedListState).select_next =
      some ⟨0, some CursorMove.Next⟩) ∧
    ((⟨0, some CursorMove.Next⟩ : PaginatedListState).select_previous =
      none) ∧
    ((⟨1, none⟩ : PaginatedListState).cursor_move = none) :=
  ⟨((C10_single_pending_intent ⟨0, none⟩).1 rfl).2.1,
   ((C10_single_pending_intent ⟨0, some CursorMove.Next⟩).2.1
      CursorMove.Next rfl).1,
   (C10_single_pending_intent ⟨0, some CursorMove.Next⟩).2.2 3 5
      ⟨1, none⟩ (by decide)⟩

/-- C7, counterexample: in the flattening of `{"a": [true]}` the primitive
array-item line `true` is a Primitive line but is not selectable — the
code's selectable filter keeps only `ObjectStart`, `ArrayStart` and
`ObjectField` lines (1 line here), while the claim's "every Primitive,
ObjectStart, ArrayStart" counts 2. -/
theorem C7_selectable_counterexample :
    ((flatten_value_map [("a", Json.arr [Json.bool true])] 0).filter
        isSelectable).length = 1 ∧
    ((flatten_value_map [("a", Json.arr [Json.bool true])] 0).filter
        specSelectable).length = 2 := by
  constructor <;>
    simp [flatten_value_map, isSelectable, specSelectable, isPrimitive,
      ValueType.fromValue]

theorem length_filterMap_lineValueType (L : List InspecotorLine) :
    (L.filterMap lineValueType).length = (L.filter isSelectable).length := by
  induction L with
  | nil => rfl
  | cons l tl ih => cases l <;> simp [lineValueType, isSelectable, ih]

/-- C7 (amended): the selectable subsequence consists of exactly the
`ObjectStart`, `ArrayStart` and named-field (`ObjectField`) lines — array
items and end markers are not selectable — the `value_types` cache has one
entry per selectable line, `select_previous` saturates at 0, and
`select_next` clamps to `selectable_count − 1` whenever the cache is
non-empty (it underflows on an empty cache). -/
theorem C7_selectable_amended :
    (∀ m : List (String × Json),
      (inspectorValueTypes (Json.obj m)).length =
        ((flatten_value_map m 0).filter isSelectable).length) ∧
    (∀ st : InspectorState,
      st.select_previous.selected = st.selected - 1) ∧
    (∀ st : InspectorState, 0 < st.value_types.length →
      ∃ st', st.select_next = some st' ∧
        st'.selected = min (st.selected + 1) (st.value_types.length - 1) ∧
        st'.selected ≤ st.value_types.length - 1) ∧
    (∀ st : InspectorState, st.value_types = [] → st.select_next = none) := by
  refine ⟨?_, ?_, ?_, ?_⟩
  · intro m
    simp only [inspectorValueTypes]
    exact length_filterMap_lineValueType _
  · intro st
    rfl
  · intro st hpos
    have hsub : checkedSub st.value_types.length 1 =
        some (st.value_types.length - 1) := checkedSub_of_le hpos
    refine ⟨InspectorState.mk
        (min (st.selected + 1) (st.value_types.length - 1))
        st.value_types, ?_, rfl, Nat.min_le_right _ _⟩
    simp [InspectorState.select_next, hsub]
  · intro st hempty
    simp [InspectorState.select_next, checkedSub, hempty]

/-- C7 witness: a one-entry cache — `select_next` at 0 stays clamped to
index 0. -/
theorem C7_selectable_amended_witness :
    0 < (⟨0, [ValueType.bool]⟩ : InspectorState).value_types.length ∧
    ∃ st', (⟨0, [ValueType.bool]⟩ : InspectorState).select_next = some st' ∧
      st'.selected = min (0 + 1)
        ((⟨0, [ValueType.bool]⟩ : InspectorState).value_types.length - 1) ∧
      st'.selected ≤
        (⟨0, [ValueType.bool]⟩ : InspectorState).value_types.length - 1 :=
  ⟨by decide,
    C7_selectable_amended.2.2.1 ⟨0, [ValueType.bool]⟩ (by decide)⟩

/-- C4, counterexample: the repository's other entity poller,
`setup_query_thread` (main.rs:438-449), on a failed query sends no message
at all and exits its loop (`return`), contradicting the claim that on
every iteration of the entity poller a failure enqueues exactly one
`CommunicationFailed` and the poller continues. -/
theorem C4_entity_poller_counterexample :
    (setupQueryThreadStep none).1 = [] ∧
    (setupQueryThreadStep none).2 = false :=
  ⟨rfl, rfl⟩

/-- C4 (amended): `handle_entity_querying` satisfies the claim — a failed
query enqueues exactly one `CommunicationFailed`, a successful one exactly
one `UpdateEntities`, and the loop continues in both cases (it never exits
on its own).  The `setup_query_thread` draft instead exits silently when a
request fails. -/
theorem C4_entity_poller_amended :
    (∀ r, (entityPollStep r).2 = true) ∧
    (entityPollStep none).1 = [Message.CommunicationFailed] ∧
    (∀ rows, (entityPollStep (some rows)).1 =
      [Message.UpdateEntities (entityQueryPayload rows)]) ∧
    setupQueryThreadStep none = ([], false) :=
  ⟨fun r => by cases r <;> rfl, rfl, fun _ => rfl, rfl⟩

/-- C5: the component poller sends `CommunicationFailed` and stops when
the preflight `list` fails; in its loop, a raised cancel flag observed at
the iteration boundary stops it without sending anything further, a
successful get sends `UpdateComponents` and continues, and a failed get
sends `CommunicationFailed` and stops (the rest of the schedule is
ignored). -/
theorem C5_component_poller :
    (∀ iters, handle_components_querying none iters =
      [Message.CommunicationFailed]) ∧
    (∀ res rest, componentsLoop ((true, res) :: rest) = []) ∧
    (∀ pairs rest, componentsLoop ((false, some pairs) :: rest) =
      Message.UpdateComponents pairs :: componentsLoop rest) ∧
    (∀ rest, componentsLoop ((false, none) :: rest) =
      [Message.CommunicationFailed]) :=
  ⟨fun _ => rfl, fun _ _ => rfl, fun _ _ => rfl, fun _ => rfl⟩

/-- C6, counterexample: Ctrl-C pressed — `handle_key` matches only on
`key.code`, has no arm for `'c'`, and never inspects the CONTROL
modifier, so the translation yields no message rather than `Quit`. -/
theorem C6_ctrl_c_counterexample :
    eventMessage
      (TermEvent.key ⟨KeyCode.char 'c', true, KeyEventKind.press⟩) = none ∧
    (none : Option Message) ≠ some Message.Quit := by
  refine ⟨rfl, fun h => Option.noConfusion h⟩

/-- C6 (amended): for every key press event, `h`/Left → MoveLeft, `l`/Right
→ MoveRight, `k`/Up → MoveUp, `j`/Down → MoveDown, `[`/PageUp → PageUp,
`]`/PageDown → PageDown, `q` → Quit; Ctrl-C and every other key yield no
message, and every non-press event yields no message. -/
theorem C6_key_translation_amended :
    (∀ b : Bool,
      eventMessage (TermEvent.key ⟨KeyCode.left, b, KeyEventKind.press⟩) =
        some Message.MoveLeft ∧
      eventMessage (TermEvent.key ⟨KeyCode.char 'h', b, KeyEventKind.press⟩) =
        some Message.MoveLeft ∧
      eventMessage (TermEvent.key ⟨KeyCode.right, b, KeyEventKind.press⟩) =
        some Message.MoveRight ∧
      eventMessage (TermEvent.key ⟨KeyCode.char 'l', b, KeyEventKind.press⟩) =
        some Message.MoveRight ∧
      eventMessage (TermEvent.key ⟨KeyCode.up, b, KeyEventKind.press⟩) =
        some Message.MoveUp ∧
      eventMessage (TermEvent.key ⟨KeyCode.char 'k', b, KeyEventKind.press⟩) =
        some Message.MoveUp ∧
      eventMessage (TermEvent.key ⟨KeyCode.down, b, KeyEventKind.press⟩) =
        some Message.MoveDown ∧
      eventMessage (TermEvent.key ⟨KeyCode.char 'j', b, KeyEventKind.press⟩) =
        some Message.MoveDown ∧
      eventMessage (TermEvent.key ⟨KeyCode.pageUp, b, KeyEventKind.press⟩) =
        some Message.PageUp ∧
      eventMessage (TermEvent.key ⟨KeyCode.char '[', b, KeyEventKind.press⟩) =
        some Message.PageUp ∧
      eventMessage (TermEvent.key ⟨KeyCode.pageDown, b, KeyEventKind.press⟩) =
        some Message.PageDown ∧
      eventMessage (TermEvent.key ⟨KeyCode.char ']', b, KeyEventKind.press⟩) =
        some Message.PageDown ∧
      eventMessage (TermEvent.key ⟨KeyCode.char 'q', b, KeyEventKind.press⟩) =
        some Message.Quit) ∧
    (∀ (b : Bool) (k : KeyEventKind),
      eventMessage (TermEvent.key ⟨KeyCode.char 'c', b, k⟩) = none) ∧
    (∀ (b : Bool) (c : Char), c ≠ 'h' → c ≠ 'l' → c ≠ 'k' → c ≠ 'j' →
      c ≠ '[' → c ≠ ']' → c ≠ 'q' →
      eventMessage (TermEvent.key ⟨KeyCode.char c, b, KeyEventKind.press⟩) =
        none) ∧
    (∀ (b : Bool) (code : KeyCode),
      code ∈ [KeyCode.tab, KeyCode.backTab, KeyCode.enter, KeyCode.esc,
        KeyCode.home, KeyCode.endKey, KeyCode.delete, KeyCode.backspace] →
      eventMessage (TermEvent.key ⟨code, b, KeyEventKind.press⟩) = none) ∧
    (∀ e : KeyEvent, e.kind ≠ KeyEventKind.press →
      eventMessage (TermEvent.key e) = none) ∧
    eventMessage TermEvent.other = none := by
  refine ⟨?_, ?_, ?_, ?_, ?_, rfl⟩
  · intro b
    exact ⟨rfl, rfl, rfl, rfl, rfl, rfl, rfl, rfl, rfl, rfl, rfl, rfl, rfl⟩
  · intro b k
    cases k <;> rfl
  · intro b c h1 h2 h3 h4 h5 h6 h7
    show handle_key ⟨KeyCode.char c, b, KeyEventKind.press⟩ = none
    unfold handle_key
    split <;> simp_all
  · intro b code hcode
    fin_cases hcode <;> rfl
  · intro e he
    obtain ⟨code, b, kind⟩ := e
    cases kind
    · exact absurd rfl he
    · rfl
    · rfl

/-- C6 witness: the amended table evaluated at `x` pressed (no message)
and at a released `q` (no message). -/
theorem C6_key_translation_amended_witness :
    eventMessage
      (TermEvent.key ⟨KeyCode.char 'x', false, KeyEventKind.press⟩) = none ∧
    eventMessage
      (TermEvent.key ⟨KeyCode.char 'q', false, KeyEventKind.release⟩) =
      none :=
  ⟨C6_key_translation_amended.2.2.1 false 'x' (by decide) (by decide)
      (by decide) (by decide) (by decide) (by decide) (by decide),
   C6_key_translation_amended.2.2.2.2.1 ⟨KeyCode.char 'q', false,
      KeyEventKind.release⟩ (by decide)⟩

theorem condEval_isSome (state : State) (h : stateOk state = true)
    (c : KeybindCondition) : (condEval state c).isSome = true := by
  cases c with
  | always => rfl
  | connected => rfl
  | focus required => rfl
  | custom f => rfl
  | inspectorValue values =>
    cases state with
    | disconnected => rfl
    | done => rfl
    | connected focus insp =>
      by_cases hf : focus = Focus.inspector
      · have hlen : insp.selected < insp.value_types.length := by
          simpa [stateOk] using h
        have hget := List.getElem?_eq_getElem hlen
        simp [condEval, hf, InspectorState.selected_value_type, hget]
      · simp [condEval, hf]

theorem activeKeybindsAux_eq (state : State)
    (kbs : List Keybind)
    (h : ∀ kb ∈ kbs, (condEval state kb.condition).isSome = true) :
    activeKeybindsAux state kbs =
      some ((kbs.filter fun kb =>
          (condEval state kb.condition).getD false).map
        fun kb => (kb.keys, kb.description)) := by
  induction kbs with
  | nil => rfl
  | cons kb tl ih =>
    have hkb := h kb (List.mem_cons_self kb tl)
    have htl := ih fun x hx => h x (List.mem_cons_of_mem kb hx)
    cases hcond : condEval state kb.condition with
    | none => rw [hcond] at hkb; simp at hkb
    | some b =>
      cases b with
      | true => simp [activeKeybindsAux, hcond, htl, List.filter_cons]
      | false => simp [activeKeybindsAux, hcond, htl, List.filter_cons]

theorem concatStrs_append (a b : List String) :
    concatStrs (a ++ b) = concatStrs a ++ concatStrs b := by
  induction a with
  | nil => simp [concatStrs, String.empty_append]
  | cons s rest ih => simp [concatStrs, ih, String.append_assoc]

theorem footer_enumFrom (total : Nat) (l : List (String × String)) :
    ∀ off : Nat, off + l.length = total →
    concatStrs ((l.enumFrom off).map fun p =>
      ([p.2.1, " ", p.2.2,
        if p.1 ≠ total - 1 then " â€¢ " else ""] : List String)).flatten =
      mojibakeFooter l := by
  induction l with
  | nil => intro off h; rfl
  | cons e tl ih =>
    intro off h
    obtain ⟨k, d⟩ := e
    cases tl with
    | nil =>
      have hoff : ¬ off ≠ total - 1 := by simp at h; omega
      simp [List.enumFrom, concatStrs, mojibakeFooter, hoff,
        String.append_empty, String.append_assoc]
    | cons t ts =>
      have hne : off ≠ total - 1 := by simp at h; omega
      have htl := ih (off + 1) (by simp at h ⊢; omega)
      rw [show List.enumFrom off ((k, d) :: t :: ts) =
            (off, (k, d)) :: List.enumFrom (off + 1) (t :: ts) from rfl,
        List.map_cons, List.flatten_cons, concatStrs_append, htl]
      simp [concatStrs, mojibakeFooter, hne, String.append_empty,
        String.append_assoc]

theorem footer_eq_src (entries : List (String × String)) :
    footerString entries = mojibakeFooter entries := by
  unfold footerString keybindDisplaySpans
  rw [show entries.enum = entries.enumFrom 0 from rfl]
  exact footer_enumFrom entries.length entries 0 (Nat.zero_add _)

/-- C9, counterexample: with the two active keybinds `s search` and
`q quit` the rendered footer joins them with keybinds.rs:133's literal
`" â€¢ "` (bytes C3 A2 E2 82 AC C2 A2, a mojibaked bullet), which differs
from the spec's `" • "` format, so the claim's "separated by a bullet
separator" fails on the code. -/
theorem C9_footer_counterexample :
    footerString [("s", "search"), ("q", "quit")] =
      "s search â€¢ q quit" ∧
    specFooter [("s", "search"), ("q", "quit")] = "s search • q quit" ∧
    footerString [("s", "search"), ("q", "quit")] ≠
      specFooter [("s", "search"), ("q", "quit")] := by
  refine ⟨by decide, by decide, by decide⟩

/-- C9 (amended): for every model state whose inspector selection is in
range, the footer contains exactly the keybinds whose condition holds for
that state (`Always`; `Connected`; `Focus` containing the current focus;
`InspectorValue` containing the selected value's type while the inspector
is focused; `Custom` returning true), in declaration order, each rendered
as the keys, a space, and the description, consecutive entries separated
by keybinds.rs:133's literal `" â€¢ "` (a mojibaked bullet) rather than
the spec's `" • "`. -/
theorem C9_footer_amended (set : KeybindSet) (state : State)
    (h : stateOk state = true) :
    ∃ entries,
      active_keybinds set state = some entries ∧
      entries = (set.keybinds.filter fun kb =>
          (condEval state kb.condition).getD false).map
        (fun kb => (kb.keys, kb.description)) ∧
      footerString entries = mojibakeFooter entries := by
  refine ⟨_, ?_, rfl, footer_eq_src _⟩
  exact activeKeybindsAux_eq state set.keybinds
    fun kb _ => condEval_isSome state h kb.condition

/-- C9 witness: the baseline-style set `s search` (Always), `x despawn`
(Focus Entities), `t toggle` (InspectorValue Bool), `q quit` (Always) at a
connected state focused on Entities: the focus-conditioned bind is kept,
the inspector-conditioned one is not. -/
theorem C9_footer_amended_witness :
    stateOk (State.connected Focus.entities ⟨0, [ValueType.bool]⟩) = true ∧
    ∃ entries,
      active_keybinds
        ⟨[⟨"s", "search", KeybindCondition.always⟩,
          ⟨"x", "despawn", KeybindCondition.focus [Focus.entities]⟩,
          ⟨"t", "toggle", KeybindCondition.inspectorValue [ValueType.bool]⟩,
          ⟨"q", "quit", KeybindCondition.always⟩]⟩
        (State.connected Focus.entities ⟨0, [ValueType.bool]⟩) =
        some entries ∧
      entries = (([⟨"s", "search", KeybindCondition.always⟩,
          ⟨"x", "despawn", KeybindCondition.focus [Focus.entities]⟩,
          ⟨"t", "toggle", KeybindCondition.inspectorValue [ValueType.bool]⟩,
          ⟨"q", "quit", KeybindCondition.always⟩] : List Keybind).filter
            fun kb => (condEval
              (State.connected Focus.entities ⟨0, [ValueType.bool]⟩)
              kb.condition).getD false).map
        (fun kb => (kb.keys, kb.description)) ∧
      footerString entries = mojibakeFooter entries :=
  ⟨rfl, C9_footer_amended
    ⟨[⟨"s", "search", KeybindCondition.always⟩,
      ⟨"x", "despawn", KeybindCondition.focus [Focus.entities]⟩,
      ⟨"t", "toggle", KeybindCondition.inspectorValue [ValueType.bool]⟩,
      ⟨"q", "quit", KeybindCondition.always⟩]⟩
    (State.connected Focus.entities ⟨0, [ValueType.bool]⟩) rfl⟩

theorem parseEntries_nil (fuel : Nat) :
    parseEntries fuel [] = some ([], []) := by
  cases fuel <;> rfl

theorem parseEntries_objEnd (fuel i : Nat) (rest : List InspecotorLine) :
    parseEntries fuel (InspecotorLine.ObjectEnd i :: rest) =
      some ([], InspecotorLine.ObjectEnd i :: rest) := by
  cases fuel <;> rfl

theorem parseItems_map (items : List Json) (i : Nat)
    (Z : List InspecotorLine) :
    parseItems ((items.map fun it => InspecotorLine.ArrayItem it i) ++
      (InspecotorLine.ArrayEnd i :: Z)) = some (items, Z) := by
  induction items with
  | nil => rfl
  | cons v vs ihv => simp [parseItems, ihv]

theorem parseEntries_mono :
    ∀ (fuel : Nat) (lines : List InspecotorLine)
      (res : List (String × Json) × List InspecotorLine) (fuel' : Nat),
      fuel ≤ fuel' → parseEntries fuel lines = some res →
      parseEntries fuel' lines = some res := by
  intro fuel
  induction fuel with
  | zero =>
    intro lines res fuel' hle h
    cases lines with
    | nil => rw [parseEntries_nil] at h ⊢; exact h
    | cons hd tl =>
      cases hd with
      | ObjectEnd i => rw [parseEntries_objEnd] at h ⊢; exact h
      | ObjectStart name i => exact absurd h (by simp [parseEntries])
      | ObjectField name v i => exact absurd h (by simp [parseEntries])
      | ArrayStart name i vt => exact absurd h (by simp [parseEntries])
      | ArrayItem v i => exact absurd h (by simp [parseEntries])
      | ArrayEnd i => exact absurd h (by simp [parseEntries])
  | succ fuel ih =>
    intro lines res fuel' hle h
    obtain ⟨f', rfl⟩ : ∃ f', fuel' = f' + 1 := ⟨fuel' - 1, by omega⟩
    have hle' : fuel ≤ f' := by omega
    cases lines with
    | nil => rw [parseEntries_nil] at h ⊢; exact h
    | cons hd tl =>
      cases hd with
      | ObjectEnd i => rw [parseEntries_objEnd] at h ⊢; exact h
      | ObjectField name v i =>
        simp only [parseEntries] at h ⊢
        cases hrec : parseEntries fuel tl with
        | none => rw [hrec] at h; simp at h
        | some p =>
          obtain ⟨es, r⟩ := p
          rw [hrec] at h
          rw [ih tl (es, r) f' hle' hrec]
          exact h
      | ObjectStart name i =>
        simp only [parseEntries] at h ⊢
        cases hrec : parseEntries fuel tl with
        | none => rw [hrec] at h; simp at h
        | some p =>
          obtain ⟨inner, r⟩ := p
          rw [hrec] at h
          rw [ih tl (inner, r) f' hle' hrec]
          cases r with
          | nil => simpa using h
          | cons rh rt =>
            cases rh <;> try simpa using h
            rename_i j
            by_cases hj : j = i
            · simp only [hj, if_pos rfl] at h ⊢
              cases hrec2 : parseEntries fuel rt with
              | none => rw [hrec2] at h; simp at h
              | some q =>
                obtain ⟨es2, r2⟩ := q
                rw [hrec2] at h
                rw [ih rt (es2, r2) f' hle' hrec2]
                exact h
            · simp only [if_neg hj] at h
              exact absurd h (by simp)
      | ArrayStart name i vt =>
        simp only [parseEntries] at h ⊢
        cases hitems : parseItems tl with
        | none => simp [hitems] at h
        | some p =>
          obtain ⟨items, r⟩ := p
          simp only [hitems] at h ⊢
          cases hrec : parseEntries fuel r with
          | none => simp [hrec] at h
          | some q =>
            obtain ⟨es, r2⟩ := q
            rw [hrec] at h
            rw [ih r (es, r2) f' hle' hrec]
            exact h
      | ArrayItem v i => exact absurd h (by simp [parseEntries])
      | ArrayEnd i => exact absurd h (by simp [parseEntries])

theorem parseEntries_flatten :
    ∀ (n : Nat) (m : List (String × Json)), msize m ≤ n →
    ∀ (i fuel : Nat) (rest : List InspecotorLine)
      (es : List (String × Json)) (r : List InspecotorLine),
      parseEntries fuel rest = some (es, r) →
      parseEntries (fuel + msize m) (flatten_value_map m i ++ rest) =
        some (m ++ es, r) := by
  intro n
  induction n with
  | zero =>
    intro m hm i fuel rest es r h
    cases m with
    | nil => simpa [flatten_value_map, msize] using h
    | cons e tl =>
      exfalso
      obtain ⟨name, v⟩ := e
      cases v <;> simp [msize] at hm
  | succ n ih =>
    intro m hm i fuel rest es r h
    cases m with
    | nil => simpa [flatten_value_map, msize] using h
    | cons e tl =>
      obtain ⟨name, v⟩ := e
      cases v
      case obj inner =>
        have hmi : msize inner ≤ n := by simp [msize] at hm; omega
        have hmt : msize tl ≤ n := by simp [msize] at hm; omega
        have hinner := ih inner hmi (i + 1) (fuel + msize tl)
          (InspecotorLine.ObjectEnd i :: (flatten_value_map tl i ++ rest))
          [] _ (parseEntries_objEnd _ i _)
        have hmono := parseEntries_mono fuel rest (es, r)
          (fuel + msize inner) (by omega) h
        have htl := ih tl hmt i (fuel + msize inner) rest es r hmono
        rw [show fuel + msize inner + msize tl =
            fuel + msize tl + msize inner from by omega] at htl
        rw [show fuel + msize ((name, Json.obj inner) :: tl) =
            (fuel + msize tl + msize inner) + 1 from by simp [msize]; omega]
        rw [show flatten_value_map ((name, Json.obj inner) :: tl) i ++ rest =
            InspecotorLine.ObjectStart name i ::
              (flatten_value_map inner (i + 1) ++
                (InspecotorLine.ObjectEnd i ::
                  (flatten_value_map tl i ++ rest))) from by
          simp [flatten_value_map]]
        simp only [parseEntries]
        rw [hinner]
        simp [htl]
      case arr items =>
        have hmt : msize tl ≤ n := by simp [msize] at hm; omega
        have htl := ih tl hmt i fuel rest es r h
        rw [show fuel + msize ((name, Json.arr items) :: tl) =
            (fuel + msize tl) + 1 from by simp [msize]; omega]
        rw [show flatten_value_map ((name, Json.arr items) :: tl) i ++ rest =
            InspecotorLine.ArrayStart name i
                (ValueType.fromValue (Json.arr items)) ::
              ((items.map fun it => InspecotorLine.ArrayItem it i) ++
                (InspecotorLine.ArrayEnd i ::
                  (flatten_value_map tl i ++ rest))) from by
          simp [flatten_value_map]]
        simp only [parseEntries]
        rw [parseItems_map]
        simp [htl]
      all_goals
        have hmt : msize tl ≤ n := by simp [msize] at hm; omega
        have htl := ih tl hmt i fuel rest es r h
        simp only [flatten_value_map, List.cons_append, msize]
        rw [show fuel + (1 + msize tl) = (fuel + msize tl) + 1 from by omega]
        simp [parseEntries, htl]

theorem msize_le_length_flatten :
    ∀ (n : Nat) (m : List (String × Json)), msize m ≤ n →
    ∀ i, msize m ≤ (flatten_value_map m i).length := by
  intro n
  induction n with
  | zero =>
    intro m hm i
    cases m with
    | nil => simp [flatten_value_map, msize]
    | cons e tl =>
      exfalso
      obtain ⟨name, v⟩ := e
      cases v <;> simp [msize] at hm
  | succ n ih =>
    intro m hm i
    cases m with
    | nil => simp [flatten_value_map, msize]
    | cons e tl =>
      obtain ⟨name, v⟩ := e
      cases v
      case obj inner =>
        have hmi : msize inner ≤ n := by simp [msize] at hm; omega
        have hmt : msize tl ≤ n := by simp [msize] at hm; omega
        have h1 := ih inner hmi (i + 1)
        have h2 := ih tl hmt i
        simp only [flatten_value_map, msize, List.length_cons,
          List.length_append]
        omega
      case arr items =>
        have hmt : msize tl ≤ n := by simp [msize] at hm; omega
        have h2 := ih tl hmt i
        simp only [flatten_value_map, msize, List.length_cons,
          List.length_append, List.length_map]
        omega
      all_goals
        have hmt : msize tl ≤ n := by simp [msize] at hm; omega
        have h2 := ih tl hmt i
        simp only [flatten_value_map, msize, List.length_cons]
        omega

/-- C8: re-serializing the flattened line sequence of any JSON object
(matching ObjectStart/ObjectEnd delimiters, collecting array items up to
their ArrayEnd, fields carrying their values) reconstructs exactly the
original object's entries — in particular equal up to object-key
ordering. -/
theorem C8_flatten_roundtrip (m : List (String × Json)) :
    rebuildObject (flatten_value_map m 0) = some m := by
  have h := parseEntries_flatten (msize m) m (Nat.le_refl _) 0 0 [] [] []
    (parseEntries_nil 0)
  simp only [List.append_nil, Nat.zero_add] at h
  have hlen := msize_le_length_flatten (msize m) m (Nat.le_refl _) 0
  have h' := parseEntries_mono (msize m) (flatten_value_map m 0) (m, [])
    ((flatten_value_map m 0).length) hlen h
  unfold rebuildObject
  rw [h']

/-- C1, counterexample: `handle_components_querying` builds the
`UpdateComponents` payload as `components.into_iter().collect()` without
sorting, so when the backing map yields `[("b", ·), ("a", ·)]` the payload
is not non-decreasing by component name, contradicting the claim that the
producing poller re-establishes that ordering on every poll iteration. -/
theorem C1_components_unsorted_counterexample :
    componentsNondec
      (componentsQueryPayload [("b", Json.null), ("a", Json.null)]) = false := by
  decide

/-- C1 (amended): after every `UpdateEntities(v)` the entity list is
non-decreasing by id, re-established by the entity poller on every
iteration regardless of the order the server returns; the
`setup_get_thread` component poller sorts its payload by name before
sending, but `handle_components_querying` sends the component map's pairs
in iteration order, with no sorting applied. -/
theorem C1_sort_amended :
    (∀ rows : List BrpQueryRow,
        entitiesNondec (entityQueryPayload rows) = true) ∧
    (∀ comps : List (String × Json),
        componentsNondec (setupGetThreadPayload comps) = true) ∧
    (∀ comps : List (String × Json), componentsQueryPayload comps = comps) := by
  refine ⟨fun rows => ?_, fun comps => ?_, fun comps => rfl⟩
  · apply nondecBy_sortBy
    · intro a b h
      simp only [decide_eq_false_iff_not, Nat.not_lt] at h
      simpa using h
    · intro a b h
      simp only [decide_eq_true_eq] at h
      simpa using Nat.le_of_lt h
  · apply nondecBy_sortBy
    · intro a b h
      simp only [strLe, h, Bool.not_false]
    · intro a b h
      simp only [strLe, strLt_asymm _ _ h, Bool.not_false]

end Brptui
